import Mathlib

/-!
Verification of the lazyfire terminal UI for Firestore.

This file gives a shallow embedding, in Lean 4, of the pure core of the
program: the structured-query translation (src/pkg/firebase/firestore.go),
the context/dispatch priority function, the focus controller, the lazily
loaded tree model with expand/collapse, the visual selection range, the
per-panel filter engine, and the data flow of the parallel multi-document
fetch.  Each Go function is translated into an executable Lean definition,
and the stated properties of the program are proved as theorems about
those definitions.
-/

namespace LazyFire

/-! ## Modelled Go string primitives

Go strings in this program are treated as Lean `String`s.  The helpers
below model the `strings`/`strconv` standard-library calls the source
uses.  `unicode` behaviour is modelled over the ASCII and Latin-1 range
that the program's own literals ("true", "null", digits, panel names)
live in.
-/

/-- Model of Go `unicode.IsSpace` on the Latin-1 range:
space, \t, \n, \v, \f, \r, NEL (U+0085) and NBSP (U+00A0). -/
def goIsSpace (c : Char) : Bool :=
  c == ' ' || c == '\t' || c == '\n' || c == '\r' ||
  c == Char.ofNat 11 || c == Char.ofNat 12 ||
  c == Char.ofNat 133 || c == Char.ofNat 160

/-- Model of Go `strings.TrimSpace`. -/
def goTrimSpace (s : String) : String :=
  String.mk (((s.data.dropWhile goIsSpace).reverse.dropWhile goIsSpace).reverse)

/-- ASCII lower-casing of one character (model of `unicode.ToLower`
restricted to ASCII, which covers every literal this program compares). -/
def asciiLower (c : Char) : Char :=
  if 'A' ≤ c ∧ c ≤ 'Z' then Char.ofNat (c.toNat + 32) else c

/-- Model of Go `strings.ToLower`. -/
def goToLower (s : String) : String :=
  String.mk (s.data.map asciiLower)

/-- Whether `c` is an ASCII decimal digit. -/
def isDecDigit (c : Char) : Bool := '0' ≤ c && c ≤ '9'

/-- Whether `c` is an ASCII hexadecimal digit. -/
def isHexDigit (c : Char) : Bool :=
  isDecDigit c || ('a' ≤ asciiLower c && asciiLower c ≤ 'f')

/-- Accumulate a base-10 natural number; `none` on any non-digit. -/
def decNatAux : List Char → Nat → Option Nat
  | [], acc => some acc
  | c :: t, acc =>
    if isDecDigit c then decNatAux t (acc * 10 + (c.toNat - '0'.toNat)) else none

/-- Model of Go `strconv.ParseInt(s, 10, 64)`: an optional sign followed by
one or more decimal digits, with the value required to fit in int64
(Go reports `ErrRange` otherwise, which the callers treat as failure). -/
def goParseInt64 (s : String) : Option Int :=
  match s.data with
  | [] => none
  | c :: rest =>
    let signAndDigits : Bool × List Char :=
      if c == '+' then (false, rest)
      else if c == '-' then (true, rest)
      else (false, c :: rest)
    match signAndDigits.2 with
    | [] => none
    | ds =>
      match decNatAux ds 0 with
      | none => none
      | some n =>
        if signAndDigits.1 then
          if n ≤ 2 ^ 63 then some (-(n : Int)) else none
        else
          if n ≤ 2 ^ 63 - 1 then some (n : Int) else none

/-- Exponent part of a float literal: optional sign, then one or more
decimal digits, consuming the whole remainder. -/
def expPartOk (cs : List Char) : Bool :=
  let body := match cs with
    | c :: t => if c == '+' || c == '-' then t else cs
    | [] => cs
  !body.isEmpty && body.all isDecDigit

/-- Decimal mantissa with optional fraction and optional exponent,
as accepted by Go `strconv.ParseFloat` (digit-separator underscores,
which Go also accepts between digits, are not modelled). -/
def decimalFloatOk (cs : List Char) : Bool :=
  let sp1 := cs.span isDecDigit
  let afterMantissa : Nat × List Char :=
    match sp1.2 with
    | '.' :: r2 =>
      let sp2 := r2.span isDecDigit
      (sp1.1.length + sp2.1.length, sp2.2)
    | _ => (sp1.1.length, sp1.2)
  if afterMantissa.1 == 0 then false
  else
    match afterMantissa.2 with
    | [] => true
    | e :: rest => (e == 'e' || e == 'E') && expPartOk rest

/-- Hexadecimal mantissa (after the `0x` prefix) with mandatory binary
exponent, as accepted by Go `strconv.ParseFloat`. -/
def hexFloatOk (cs : List Char) : Bool :=
  let sp1 := cs.span isHexDigit
  let afterMantissa : Nat × List Char :=
    match sp1.2 with
    | '.' :: r2 =>
      let sp2 := r2.span isHexDigit
      (sp1.1.length + sp2.1.length, sp2.2)
    | _ => (sp1.1.length, sp1.2)
  if afterMantissa.1 == 0 then false
  else
    match afterMantissa.2 with
    | p :: rest => (p == 'p' || p == 'P') && expPartOk rest
    | [] => false

/-- Case-insensitive (ASCII) equality of a character list with a string. -/
def ciEq (cs : List Char) (s : String) : Bool :=
  cs.map asciiLower == s.data

/-- Model of the syntax accepted by Go `strconv.ParseFloat(s, 64)`:
optionally signed `inf`/`infinity`, unsigned `nan` (both case-insensitive),
decimal mantissa with optional fraction/exponent, or a `0x` hex mantissa
with mandatory `p` exponent.  Literals whose magnitude overflows float64
(Go reports `ErrRange`, which the caller treats as failure) are not
modelled. -/
def goParseFloatOk (s : String) : Bool :=
  match s.data with
  | [] => false
  | c :: t =>
    let body := if c == '+' || c == '-' then t else c :: t
    if ciEq body "inf" || ciEq body "infinity" then true
    else if ciEq s.data "nan" then true
    else
      match body with
      | '0' :: x :: rest =>
        if x == 'x' || x == 'X' then hexFloatOk rest else decimalFloatOk body
      | _ => decimalFloatOk body

/-! ## Firestore structured-query translation (src/pkg/firebase/firestore.go)

`FirestoreValue` models the `map[string]interface{}` tagged values the Go
code builds (`{"stringValue": …}`, `{"integerValue": …}`, …).  For
`doubleValue` the Go code stores a float64 (auto path) or the raw literal
string (explicit path); the model carries the source literal in both
cases, which determines the float64 the Go code would store. -/

inductive FirestoreValue where
  | nullValue : FirestoreValue
  | booleanValue (b : Bool) : FirestoreValue
  | integerValue (s : String) : FirestoreValue
  | doubleValue (lit : String) : FirestoreValue
  | stringValue (s : String) : FirestoreValue
  | arrayValue (vs : List FirestoreValue) : FirestoreValue

/-- The auto-detect branch of `toFirestoreValue` (the code after the
explicit-type switch): trim, then try null, boolean, integer, float,
and fall back to string.  The integer case stores `fmt.Sprintf("%d", i)`,
i.e. the canonical decimal representation of the parsed int64. -/
def autoDetectValue (s : String) : FirestoreValue :=
  let t := goTrimSpace s
  if t = "null" ∨ t = "" then .nullValue
  else
    let lower := goToLower t
    if lower = "true" then .booleanValue true
    else if lower = "false" then .booleanValue false
    else
      match goParseInt64 t with
      | some i => .integerValue (toString i)
      | none =>
        if goParseFloatOk t then .doubleValue t else .stringValue t

/-- Model of `parseArrayValue`: split on commas, trim each part, skip empty
parts, auto-type each element (`toFirestoreValue(part, "auto")` is exactly
`autoDetectValue part`). -/
def parseArrayValue (s : String) : FirestoreValue :=
  .arrayValue ((((s.splitOn ",").map goTrimSpace).filter (fun p => p ≠ "")).map autoDetectValue)

/-- Model of `toFirestoreValue(v, valueType)`.  The GUI always passes the
filter value as a string, so `fmt.Sprintf("%v", v)` is the identity.
A `valueType` that is neither empty, `"auto"`, nor one of the six explicit
type names falls through to auto-detection, exactly as in the Go switch. -/
def toFirestoreValue (v : String) (valueType : String) : FirestoreValue :=
  if valueType = "string" then .stringValue v
  else if valueType = "integer" then .integerValue v
  else if valueType = "double" then .doubleValue v
  else if valueType = "boolean" then .booleanValue (goToLower v == "true" || v == "1")
  else if valueType = "null" then .nullValue
  else if valueType = "array" then parseArrayValue v
  else autoDetectValue v

/-- Model of `convertOperator`: the fixed operator table, defaulting to
`EQUAL` for unrecognized tokens. -/
def convertOperator (op : String) : String :=
  if op = "==" ∨ op = "EQUAL" then "EQUAL"
  else if op = "!=" ∨ op = "NOT_EQUAL" then "NOT_EQUAL"
  else if op = "<" ∨ op = "LESS_THAN" then "LESS_THAN"
  else if op = "<=" ∨ op = "LESS_THAN_OR_EQUAL" then "LESS_THAN_OR_EQUAL"
  else if op = ">" ∨ op = "GREATER_THAN" then "GREATER_THAN"
  else if op = ">=" ∨ op = "GREATER_THAN_OR_EQUAL" then "GREATER_THAN_OR_EQUAL"
  else if op = "in" ∨ op = "IN" then "IN"
  else if op = "not-in" ∨ op = "NOT_IN" then "NOT_IN"
  else if op = "array-contains" ∨ op = "ARRAY_CONTAINS" then "ARRAY_CONTAINS"
  else if op = "array-contains-any" ∨ op = "ARRAY_CONTAINS_ANY" then "ARRAY_CONTAINS_ANY"
  else "EQUAL"

/-- Mirror of Go `firebase.QueryFilter`. -/
structure QueryFilter where
  field : String
  operator : String
  value : String
  valueType : String

/-- Mirror of Go `firebase.QueryOptions`. -/
structure QueryOptions where
  filters : List QueryFilter
  orderBy : String
  orderDir : String
  limit : Int

/-- The `where` clause of a structured query: either a single
`fieldFilter` map or a `compositeFilter` map with an operator and a list
of field filters. -/
inductive WhereClause where
  | fieldFilter (fieldPath : String) (op : String) (value : FirestoreValue) : WhereClause
  | composite (op : String) (filters : List WhereClause) : WhereClause

/-- Model of `buildFieldFilter`. -/
def buildFieldFilter (f : QueryFilter) : WhereClause :=
  .fieldFilter f.field (convertOperator f.operator) (toFirestoreValue f.value f.valueType)

/-- The structured-query request map built by `buildStructuredQuery`;
optional keys of the Go map become `Option` fields. -/
structure StructuredQuery where
  fromCollectionId : String
  whereClause : Option WhereClause
  orderBy : Option (String × String)
  limit : Option Int

/-- Model of `buildStructuredQuery`: collection id is the last path
segment; zero filters emit no `where`, one filter is emitted directly,
several are wrapped in an `AND` composite; `orderBy` is emitted when the
field name is non-empty with direction `DESCENDING` exactly for the
`DESC`/`DESCENDING` draft directions; `limit` is emitted when positive. -/
def buildStructuredQuery (collectionPath : String) (opts : QueryOptions) : StructuredQuery :=
  let collectionID := (collectionPath.splitOn "/").getLastD ""
  { fromCollectionId := collectionID
    whereClause :=
      match opts.filters with
      | [] => none
      | [f] => some (buildFieldFilter f)
      | fs => some (.composite "AND" (fs.map buildFieldFilter))
    orderBy :=
      if opts.orderBy ≠ "" then
        some (opts.orderBy,
          if opts.orderDir = "DESC" ∨ opts.orderDir = "DESCENDING"
          then "DESCENDING" else "ASCENDING")
      else none
    limit := if opts.limit > 0 then some opts.limit else none }

/-- C1: query translation is a deterministic pure function of the draft:
no `where` clause for zero filters, the single field filter for one, an
`AND` composite with one field filter per draft filter in draft order for
several; an `orderBy` entry iff the field name is non-empty, descending
exactly for draft directions `DESC`/`DESCENDING`; a `limit` field iff the
draft limit is strictly positive. -/
theorem buildStructuredQuery_spec (path : String) (opts : QueryOptions) :
    (opts.filters = [] → (buildStructuredQuery path opts).whereClause = none)
    ∧ (∀ f, opts.filters = [f] →
        (buildStructuredQuery path opts).whereClause = some (buildFieldFilter f))
    ∧ (1 < opts.filters.length →
        (buildStructuredQuery path opts).whereClause
          = some (.composite "AND" (opts.filters.map buildFieldFilter)))
    ∧ ((buildStructuredQuery path opts).orderBy.isSome ↔ opts.orderBy ≠ "")
    ∧ (∀ fp dir, (buildStructuredQuery path opts).orderBy = some (fp, dir) →
        fp = opts.orderBy
        ∧ (dir = "DESCENDING" ↔ (opts.orderDir = "DESC" ∨ opts.orderDir = "DESCENDING")))
    ∧ ((buildStructuredQuery path opts).limit.isSome ↔ 0 < opts.limit)
    ∧ (0 < opts.limit → (buildStructuredQuery path opts).limit = some opts.limit) := by
  refine ⟨?_, ?_, ?_, ?_, ?_, ?_, ?_⟩
  · intro h; simp [buildStructuredQuery, h]
  · intro f h; simp [buildStructuredQuery, h]
  · intro h
    rcases hf : opts.filters with _ | ⟨a, t⟩
    · rw [hf] at h; simp at h
    · rcases ht : t with _ | ⟨b, t2⟩
      · rw [hf, ht] at h; simp at h
      · rw [ht] at hf; simp [buildStructuredQuery, hf]
  · by_cases h : opts.orderBy = "" <;> simp [buildStructuredQuery, h]
  · intro fp dir h
    by_cases hOB : opts.orderBy = ""
    · simp [buildStructuredQuery, hOB] at h
    · by_cases hd : opts.orderDir = "DESC" ∨ opts.orderDir = "DESCENDING"
      · simp [buildStructuredQuery, hOB, hd] at h
        exact ⟨h.1.symm, by simp [h.2.symm, hd]⟩
      · simp [buildStructuredQuery, hOB, hd] at h
        refine ⟨h.1.symm, ?_⟩
        rw [← h.2]
        simp [hd]
  · by_cases h : 0 < opts.limit <;> simp [buildStructuredQuery, h]
  · intro h; simp [buildStructuredQuery, h]

/-- The query draft used as the concrete instance for the translation
theorem: two filters, descending order on `created`, limit 100. -/
def exampleQueryOpts : QueryOptions :=
  { filters := [
      { field := "status", operator := "==", value := "active", valueType := "string" },
      { field := "age", operator := ">", value := "18", valueType := "integer" }]
    orderBy := "created"
    orderDir := "DESC"
    limit := 100 }

/-- Witness for C1 at a concrete draft. -/
theorem buildStructuredQuery_spec_witness :
    (buildStructuredQuery "users" exampleQueryOpts).whereClause
      = some (.composite "AND" (exampleQueryOpts.filters.map buildFieldFilter))
    ∧ (buildStructuredQuery "users" exampleQueryOpts).limit = some 100 := by
  have h := buildStructuredQuery_spec "users" exampleQueryOpts
  exact ⟨h.2.2.1 (by decide), h.2.2.2.2.2.2 (by decide)⟩

/-- C2: with value type `auto` (or empty, or unrecognized), conversion
applies to the trimmed literal, in strict priority order: empty/`"null"`
gives null, case-insensitive `true`/`false` gives a boolean, a base-10
int64 literal gives an integer value (canonical decimal form), a float
literal gives a double value, anything else a string value. -/
theorem toFirestoreValue_auto_spec (s : String) :
    (goTrimSpace s = "" ∨ goTrimSpace s = "null" →
      toFirestoreValue s "auto" = .nullValue)
    ∧ (¬(goTrimSpace s = "" ∨ goTrimSpace s = "null") →
        goToLower (goTrimSpace s) = "true" →
        toFirestoreValue s "auto" = .booleanValue true)
    ∧ (¬(goTrimSpace s = "" ∨ goTrimSpace s = "null") →
        goToLower (goTrimSpace s) = "false" →
        toFirestoreValue s "auto" = .booleanValue false)
    ∧ (∀ n : Int, ¬(goTrimSpace s = "" ∨ goTrimSpace s = "null") →
        goToLower (goTrimSpace s) ≠ "true" →
        goToLower (goTrimSpace s) ≠ "false" →
        goParseInt64 (goTrimSpace s) = some n →
        toFirestoreValue s "auto" = .integerValue (toString n))
    ∧ (¬(goTrimSpace s = "" ∨ goTrimSpace s = "null") →
        goToLower (goTrimSpace s) ≠ "true" →
        goToLower (goTrimSpace s) ≠ "false" →
        goParseInt64 (goTrimSpace s) = none →
        goParseFloatOk (goTrimSpace s) = true →
        toFirestoreValue s "auto" = .doubleValue (goTrimSpace s))
    ∧ (¬(goTrimSpace s = "" ∨ goTrimSpace s = "null") →
        goToLower (goTrimSpace s) ≠ "true" →
        goToLower (goTrimSpace s) ≠ "false" →
        goParseInt64 (goTrimSpace s) = none →
        goParseFloatOk (goTrimSpace s) = false →
        toFirestoreValue s "auto" = .stringValue (goTrimSpace s)) := by
  have hval : toFirestoreValue s "auto" = autoDetectValue s := by
    simp [toFirestoreValue]
  refine ⟨?_, ?_, ?_, ?_, ?_, ?_⟩
  · intro h
    rcases h with h | h <;> simp [hval, autoDetectValue, h]
  · intro h1 h2
    push_neg at h1
    simp [hval, autoDetectValue, h1.1, h1.2, h2]
  · intro h1 h2
    push_neg at h1
    simp [hval, autoDetectValue, h1.1, h1.2, h2]
  · intro n h1 h2 h3 h4
    push_neg at h1
    simp [hval, autoDetectValue, h1.1, h1.2, h2, h3, h4]
  · intro h1 h2 h3 h4 h5
    push_neg at h1
    simp [hval, autoDetectValue, h1.1, h1.2, h2, h3, h4, h5]
  · intro h1 h2 h3 h4 h5
    push_neg at h1
    simp [hval, autoDetectValue, h1.1, h1.2, h2, h3, h4, h5]

/-- Witness for C2 at the concrete literals named in the specification. -/
theorem toFirestoreValue_auto_spec_witness :
    toFirestoreValue "42" "auto" = .integerValue "42"
    ∧ toFirestoreValue "3.14" "auto" = .doubleValue "3.14"
    ∧ toFirestoreValue "true" "auto" = .booleanValue true
    ∧ toFirestoreValue "TRUE" "auto" = .booleanValue true
    ∧ toFirestoreValue "" "auto" = .nullValue
    ∧ toFirestoreValue "null" "auto" = .nullValue := by
  refine ⟨?_, ?_, ?_, ?_, ?_, ?_⟩
  · exact (toFirestoreValue_auto_spec "42").2.2.2.1 42 (by decide) (by decide)
      (by decide) (by rfl)
  · exact (toFirestoreValue_auto_spec "3.14").2.2.2.2.1 (by decide) (by decide)
      (by decide) (by rfl) (by rfl)
  · exact (toFirestoreValue_auto_spec "true").2.1 (by decide) (by rfl)
  · exact (toFirestoreValue_auto_spec "TRUE").2.1 (by decide) (by rfl)
  · exact (toFirestoreValue_auto_spec "").1 (Or.inl (by rfl))
  · exact (toFirestoreValue_auto_spec "null").1 (Or.inr (by rfl))

/-! ## Context resolution (src/pkg/gui/bindings.go)

The `bindings.go` snapshot under src/ predates the query builder: it
declares only the help/modal/filter/select/normal contexts, while
`keybindings.go` in the same snapshot already registers handlers for
`ContextQuery` and `ContextQuerySelect`, whose declarations (and the
matching `getContext`) are not in any file under src/.  The current
`getContext` is therefore modelled from the spec (§4.7). -/

/-- The UI context/mode enum (`Context` in bindings.go, extended with the
query-builder contexts that keybindings.go dispatches on). -/
inductive Context where
  | help : Context
  | modal : Context
  | query : Context
  | querySelect : Context
  | select : Context
  | filter : Context
  | normal : Context
  deriving DecidableEq, Repr

/-- The UI flags `getContext` consults (fields of the `Gui` struct). -/
structure UIFlags where
  helpOpen : Bool
  modalOpen : Bool
  queryModalOpen : Bool
  querySelectOpen : Bool
  selectMode : Bool
  filterInputActive : Bool

/-- Modelled from the spec: the current `getContext` is missing from src/
(the `bindings.go` present is a stale revision without the query-builder
contexts that keybindings.go references); §4.7 fixes the priority order
help-popup > command-modal > query-builder > query-option-popup >
visual-select > filter-input-editing > normal. -/
def getContext (g : UIFlags) : Context :=
  if g.helpOpen then .help
  else if g.modalOpen then .modal
  else if g.queryModalOpen then .query
  else if g.querySelectOpen then .querySelect
  else if g.selectMode then .select
  else if g.filterInputActive then .filter
  else .normal

/-- C3: the active mode is a pure function of the UI flags, resolved in
the fixed priority order help > modal > query builder > query option
popup > visual select > filter editing > normal.  In particular, when the
competition is between visual select and filter editing, select wins, and
the query-builder mode beats every lower-priority flag. -/
theorem getContext_priority (g : UIFlags) :
    (g.helpOpen = true → getContext g = .help)
    ∧ (g.helpOpen = false → g.modalOpen = true → getContext g = .modal)
    ∧ (g.helpOpen = false → g.modalOpen = false → g.queryModalOpen = true →
        getContext g = .query)
    ∧ (g.helpOpen = false → g.modalOpen = false → g.queryModalOpen = false →
        g.querySelectOpen = true → getContext g = .querySelect)
    ∧ (g.helpOpen = false → g.modalOpen = false → g.queryModalOpen = false →
        g.querySelectOpen = false → g.selectMode = true → getContext g = .select)
    ∧ (g.helpOpen = false → g.modalOpen = false → g.queryModalOpen = false →
        g.querySelectOpen = false → g.selectMode = false →
        g.filterInputActive = true → getContext g = .filter)
    ∧ (g.helpOpen = false → g.modalOpen = false → g.queryModalOpen = false →
        g.querySelectOpen = false → g.selectMode = false →
        g.filterInputActive = false → getContext g = .normal) := by
  refine ⟨?_, ?_, ?_, ?_, ?_, ?_, ?_⟩ <;>
    intros <;> simp_all [getContext]

/-- Witness for C3: with both visual select and filter editing active (and
no higher-priority popup), the resolved mode is visual select. -/
theorem getContext_priority_witness :
    getContext ⟨false, false, false, false, true, true⟩ = .select :=
  (getContext_priority ⟨false, false, false, false, true, true⟩).2.2.2.2.1
    rfl rfl rfl rfl rfl

/-! ## Focus controller (src/unnamed/part_008, the current actions.go)

Two revisions of actions.go are in the snapshot; `part_008` is the
current one (it contains the visual-select mode and the details-escape
behaviour recorded in the changelog for 0.1.32, and the stale
`pkg/gui/actions.go` still routes left/right through the details panel).
The model keeps the focus-relevant fields of the `Gui` struct and embeds
the focus effect of each handler; sub-operations that do not touch focus
(layout, select-set and filter-buffer cleanup) are reduced to the flag
they clear. -/

structure FocusState where
  currentColumn : String
  previousColumn : String
  helpOpen : Bool
  modalOpen : Bool
  selectMode : Bool
  filterInputActive : Bool
  committedFilter : Bool
  deriving DecidableEq, Repr

/-- Model of `doColumnLeft` (part_008): a no-op in details, otherwise
projects → tree (wrap), collections → projects, tree → collections. -/
def doColumnLeft (g : FocusState) : FocusState :=
  if g.currentColumn = "details" then g
  else
    { g with currentColumn :=
        if g.currentColumn = "projects" then "tree"
        else if g.currentColumn = "collections" then "projects"
        else if g.currentColumn = "tree" then "collections"
        else "" }

/-- Model of `doColumnRight` (part_008): a no-op in details, otherwise
projects → collections, collections → tree, tree → projects (wrap). -/
def doColumnRight (g : FocusState) : FocusState :=
  if g.currentColumn = "details" then g
  else
    { g with currentColumn :=
        if g.currentColumn = "projects" then "collections"
        else if g.currentColumn = "collections" then "tree"
        else if g.currentColumn = "tree" then "projects"
        else "" }

/-- Model of `doNextColumn` (Tab): go to details, recording the previous
panel; a no-op when already in details. -/
def doNextColumn (g : FocusState) : FocusState :=
  if g.currentColumn = "details" then g
  else { g with previousColumn := g.currentColumn, currentColumn := "details" }

/-- Focus effect of `doEnter` (part_008): from the tree panel it records
the previous panel and focuses details (in both the select-mode and the
load-then-view branch); from other panels focus is unchanged. -/
def doEnterFocus (g : FocusState) : FocusState :=
  if g.currentColumn = "tree" then
    { g with previousColumn := g.currentColumn, currentColumn := "details" }
  else g

/-- Model of `doEscape` (part_008): priority help popup > command modal >
details panel (return to previous, with tree as the fallback for an empty
record) > select mode in tree > filter input > committed filter. -/
def doEscape (g : FocusState) : FocusState :=
  if g.helpOpen then { g with helpOpen := false }
  else if g.modalOpen then { g with modalOpen := false }
  else if g.currentColumn = "details" then
    { g with currentColumn :=
        if g.previousColumn = "" then "tree" else g.previousColumn }
  else if g.selectMode ∧ g.currentColumn = "tree" then
    { g with selectMode := false }
  else if g.filterInputActive then { g with filterInputActive := false }
  else if g.committedFilter then { g with committedFilter := false }
  else g

/-- The focus-changing key actions under consideration. -/
inductive FocusAction where
  | columnLeft : FocusAction
  | columnRight : FocusAction
  | nextColumn : FocusAction
  | enter : FocusAction
  | escape : FocusAction
  deriving DecidableEq, Repr

def stepFocus : FocusAction → FocusState → FocusState
  | .columnLeft, g => doColumnLeft g
  | .columnRight, g => doColumnRight g
  | .nextColumn, g => doNextColumn g
  | .enter, g => doEnterFocus g
  | .escape, g => doEscape g

/-- The column-switch targets of left/right moves are list panels (or the
empty string for an unknown panel), never the details panel. -/
theorem columnMoveTarget_ne_details (a b c : String) (x : String) :
    (if x = "projects" then a
     else if x = "collections" then b
     else if x = "tree" then c else "") = "details" →
    a = "details" ∨ b = "details" ∨ c = "details" := by
  intro h
  split at h
  · exact Or.inl h
  · split at h
    · exact Or.inr (Or.inl h)
    · split at h
      · exact Or.inr (Or.inr h)
      · exact absurd h (by decide)

/-- Escape does not change focus outside the details panel. -/
theorem doEscape_current_of_ne (g : FocusState) (hnd : g.currentColumn ≠ "details") :
    (doEscape g).currentColumn = g.currentColumn := by
  unfold doEscape
  repeat' split
  all_goals simp_all

/-- C4: left/right never move focus into the details panel and cycle only
through the three list panels with wraparound; among the modelled actions,
details is entered only by the explicit go-to-details actions (Tab, Enter
in tree), which record the previously focused panel; and details is
exited only by the explicit back action (Esc), which restores focus to
the recorded panel. -/
theorem focus_details_discipline (g : FocusState) :
    ((doColumnLeft g).currentColumn = "details" → g.currentColumn = "details")
    ∧ ((doColumnRight g).currentColumn = "details" → g.currentColumn = "details")
    ∧ (g.currentColumn = "projects" → (doColumnLeft g).currentColumn = "tree")
    ∧ (g.currentColumn = "collections" → (doColumnLeft g).currentColumn = "projects")
    ∧ (g.currentColumn = "tree" → (doColumnLeft g).currentColumn = "collections")
    ∧ (g.currentColumn = "projects" → (doColumnRight g).currentColumn = "collections")
    ∧ (g.currentColumn = "collections" → (doColumnRight g).currentColumn = "tree")
    ∧ (g.currentColumn = "tree" → (doColumnRight g).currentColumn = "projects")
    ∧ (g.currentColumn = "details" → doColumnLeft g = g ∧ doColumnRight g = g)
    ∧ (∀ a : FocusAction, g.currentColumn ≠ "details" →
        (stepFocus a g).currentColumn = "details" →
        (a = .nextColumn ∨ a = .enter) ∧ (stepFocus a g).previousColumn = g.currentColumn)
    ∧ (∀ a : FocusAction, g.currentColumn = "details" →
        (stepFocus a g).currentColumn ≠ "details" → a = .escape)
    ∧ (g.currentColumn = "details" → g.helpOpen = false → g.modalOpen = false →
        g.previousColumn ≠ "" → (doEscape g).currentColumn = g.previousColumn) := by
  refine ⟨?_, ?_, ?_, ?_, ?_, ?_, ?_, ?_, ?_, ?_, ?_, ?_⟩
  · intro h
    by_cases hd : g.currentColumn = "details"
    · exact hd
    · exfalso
      simp only [doColumnLeft, if_neg hd] at h
      rcases columnMoveTarget_ne_details _ _ _ _ h with h1 | h1 | h1 <;> exact absurd h1 (by decide)
  · intro h
    by_cases hd : g.currentColumn = "details"
    · exact hd
    · exfalso
      simp only [doColumnRight, if_neg hd] at h
      rcases columnMoveTarget_ne_details _ _ _ _ h with h1 | h1 | h1 <;> exact absurd h1 (by decide)
  · intro h; simp [doColumnLeft, h]
  · intro h; simp [doColumnLeft, h]
  · intro h; simp [doColumnLeft, h]
  · intro h; simp [doColumnRight, h]
  · intro h; simp [doColumnRight, h]
  · intro h; simp [doColumnRight, h]
  · intro h; constructor <;> simp [doColumnLeft, doColumnRight, h]
  · intro a hnd h
    cases a
    · exfalso
      simp only [stepFocus, doColumnLeft, if_neg hnd] at h
      rcases columnMoveTarget_ne_details _ _ _ _ h with h1 | h1 | h1 <;> exact absurd h1 (by decide)
    · exfalso
      simp only [stepFocus, doColumnRight, if_neg hnd] at h
      rcases columnMoveTarget_ne_details _ _ _ _ h with h1 | h1 | h1 <;> exact absurd h1 (by decide)
    · simp [stepFocus, doNextColumn, hnd]
    · refine ⟨Or.inr rfl, ?_⟩
      by_cases ht : g.currentColumn = "tree"
      · simp [stepFocus, doEnterFocus, ht]
      · exfalso
        simp [stepFocus, doEnterFocus, ht] at h
        exact hnd h
    · exfalso
      simp only [stepFocus] at h
      rw [doEscape_current_of_ne g hnd] at h
      exact hnd h
  · intro a hd h
    cases a
    · exact absurd (by simp [stepFocus, doColumnLeft, hd]) h
    · exact absurd (by simp [stepFocus, doColumnRight, hd]) h
    · exact absurd (by simp [stepFocus, doNextColumn, hd]) h
    · exact absurd (by simp [stepFocus, doEnterFocus, hd]) h
    · rfl
  · intro hd hh hm hp
    simp [doEscape, hh, hm, hd, hp]

/-- Witness for C4: from the tree panel with a recorded previous panel,
the left move lands on collections, never details, and escape from
details restores the recorded panel. -/
theorem focus_details_discipline_witness :
    (doColumnLeft ⟨"tree", "", false, false, false, false, false⟩).currentColumn
      = "collections"
    ∧ (doEscape ⟨"details", "projects", false, false, false, false, false⟩).currentColumn
      = "projects" := by
  constructor
  · exact (focus_details_discipline ⟨"tree", "", false, false, false, false, false⟩).2.2.2.2.1 rfl
  · exact (focus_details_discipline
      ⟨"details", "projects", false, false, false, false, false⟩).2.2.2.2.2.2.2.2.2.2.2
      rfl rfl rfl (by decide)

/-! ## Tree model (src/pkg/gui/gui.go)

`TreeNode` mirrors the Go struct.  `collapseNode` embeds
`(*Gui).collapseNode`; `expandNode` embeds the child-splice performed in
`selectTreeNode` when a fetch for an unexpanded node completes (both the
subcollection and the document branch insert the freshly fetched children
at depth `parent+1` immediately after the node and mark it expanded);
`collapseAt` is `collapseNode` followed by the `node.Expanded = false`
write the call site performs through its pointer into the slice. -/

structure TreeNode where
  path : String
  name : String
  type : String
  depth : Nat
  hasChildren : Bool
  expanded : Bool
  deriving DecidableEq, Repr, Inhabited

/-- Model of `collapseNode`: out-of-range indices return the list
unchanged; otherwise the maximal contiguous run of nodes deeper than the
node, starting right after it, is removed (the Go code computes `endIdx`
by scanning and splices only when the run is non-empty). -/
def collapseNode (ns : List TreeNode) (idx : Nat) : List TreeNode :=
  if ns.length ≤ idx then ns
  else
    let d := (ns.getD idx default).depth
    let endIdx := idx + 1 + ((ns.drop (idx + 1)).takeWhile (fun n => d < n.depth)).length
    if idx + 1 < endIdx then ns.take (idx + 1) ++ ns.drop endIdx else ns

/-- Child nodes built from fetched descriptors `(path, name)`, tagged with
`depth = parentDepth + 1`, `HasChildren = true`, `Expanded = false`, as in
both insertion sites of `selectTreeNode`. -/
def mkChildNodes (childType : String) (parentDepth : Nat) (cs : List (String × String)) : List TreeNode :=
  cs.map (fun c =>
    { path := c.1, name := c.2, type := childType,
      depth := parentDepth + 1, hasChildren := true, expanded := false })

/-- Model of the expand splice in `selectTreeNode`: insert the children
immediately after the node and mark it expanded; out-of-range indices
leave the list unchanged (the Go code guards with `nodeIdx < len`). -/
def expandNode (ns : List TreeNode) (idx : Nat) (childType : String) (cs : List (String × String)) : List TreeNode :=
  if ns.length ≤ idx then ns
  else
    let node := ns.getD idx default
    (ns.take (idx + 1) ++ mkChildNodes childType node.depth cs ++ ns.drop (idx + 1)).set
      idx { node with expanded := true }

/-- `collapseNode` followed by clearing the node's expanded flag, as the
collapse branches of `selectTreeNode` do via `node.Expanded = false`. -/
def collapseAt (ns : List TreeNode) (idx : Nat) : List TreeNode :=
  let ns2 := collapseNode ns idx
  if ns2.length ≤ idx then ns2
  else ns2.set idx { ns2.getD idx default with expanded := false }

/-- The facet of the pre-order forest invariant that collapse relies on:
an unexpanded node is never immediately followed by a deeper node (its
child run is absent). -/
def unexpandedNoDeeper : List TreeNode → Bool
  | [] => true
  | [_] => true
  | a :: b :: t => (a.expanded || decide (b.depth ≤ a.depth)) && unexpandedNoDeeper (b :: t)

theorem collapseNode_cons_succ (n : TreeNode) (l : List TreeNode) (i : Nat) :
    collapseNode (n :: l) (i + 1) = n :: collapseNode l i := by
  by_cases h : l.length ≤ i
  · have h2 : (n :: l).length ≤ i + 1 := by simpa using Nat.succ_le_succ h
    rw [collapseNode, collapseNode, if_pos h2, if_pos h]
  · have h2 : ¬((n :: l).length ≤ i + 1) := by
      simp only [List.length_cons]
      omega
    rw [collapseNode, collapseNode, if_neg h2, if_neg h]
    simp only [List.getD_cons_succ, List.drop_succ_cons, List.take_succ_cons]
    by_cases hw :
        0 < ((l.drop (i + 1)).takeWhile
          (fun m => (l.getD i default).depth < m.depth)).length
    · rw [if_pos (by omega), if_pos (by omega)]
      have hdrop : (n :: l).drop (i + 1 + 1 +
          ((l.drop (i + 1)).takeWhile
            (fun m => (l.getD i default).depth < m.depth)).length) =
          l.drop (i + 1 +
          ((l.drop (i + 1)).takeWhile
            (fun m => (l.getD i default).depth < m.depth)).length) := by
        have : i + 1 + 1 +
            ((l.drop (i + 1)).takeWhile
              (fun m => (l.getD i default).depth < m.depth)).length =
            (i + 1 +
            ((l.drop (i + 1)).takeWhile
              (fun m => (l.getD i default).depth < m.depth)).length) + 1 := by omega
        rw [this, List.drop_succ_cons]
      rw [hdrop]
      simp
    · rw [if_neg (by omega), if_neg (by omega)]

theorem collapseAt_cons_succ (n : TreeNode) (l : List TreeNode) (i : Nat) :
    collapseAt (n :: l) (i + 1) = n :: collapseAt l i := by
  rw [collapseAt, collapseAt, collapseNode_cons_succ]
  by_cases h : (collapseNode l i).length ≤ i
  · have h2 : (n :: collapseNode l i).length ≤ i + 1 := by simpa using Nat.succ_le_succ h
    rw [if_pos h2, if_pos h]
  · have h2 : ¬((n :: collapseNode l i).length ≤ i + 1) := by
      simp only [List.length_cons]
      omega
    rw [if_neg h2, if_neg h]
    simp

theorem expandNode_cons_succ (n : TreeNode) (l : List TreeNode) (i : Nat)
    (ct : String) (cs : List (String × String)) :
    expandNode (n :: l) (i + 1) ct cs = n :: expandNode l i ct cs := by
  by_cases h : l.length ≤ i
  · have h2 : (n :: l).length ≤ i + 1 := by simpa using Nat.succ_le_succ h
    rw [expandNode, expandNode, if_pos h2, if_pos h]
  · have h2 : ¬((n :: l).length ≤ i + 1) := by
      simp only [List.length_cons]
      omega
    rw [expandNode, expandNode, if_neg h2, if_neg h]
    simp [List.getD_cons_succ, List.drop_succ_cons, List.take_succ_cons]

theorem takeWhile_children_append (ct : String) (d : Nat) (cs : List (String × String))
    (rest : List TreeNode) :
    (mkChildNodes ct d cs ++ rest).takeWhile (fun m => d < m.depth) =
      mkChildNodes ct d cs ++ rest.takeWhile (fun m => d < m.depth) := by
  induction cs with
  | nil => simp [mkChildNodes]
  | cons c t ih =>
    simp only [mkChildNodes, List.map_cons, List.cons_append, List.takeWhile_cons]
    rw [mkChildNodes] at ih
    simp [ih, Nat.lt_succ_self]

theorem drop_children_append (ct : String) (d : Nat) (cs : List (String × String))
    (rest : List TreeNode) :
    (mkChildNodes ct d cs ++ rest).drop (mkChildNodes ct d cs).length = rest := by
  exact List.drop_left _ _

/-- C5: on a node list where unexpanded nodes carry no child run (the
pre-order invariant), expanding an unexpanded node at a valid backing
index with a non-empty fetched child list and then collapsing at the same
index restores exactly the original node list. -/
theorem expand_collapse_roundtrip (ns : List TreeNode) (idx : Nat) (ct : String)
    (cs : List (String × String))
    (hinv : unexpandedNoDeeper ns = true)
    (hidx : idx < ns.length)
    (hexp : (ns.getD idx default).expanded = false)
    (hcs : cs ≠ []) :
    collapseAt (expandNode ns idx ct cs) idx = ns := by
  induction idx generalizing ns with
  | zero =>
    match ns, hidx with
    | n :: rest, _ =>
      have hexp0 : n.expanded = false := by simpa using hexp
      have hE : expandNode (n :: rest) 0 ct cs =
          { n with expanded := true } :: (mkChildNodes ct n.depth cs ++ rest) := by
        rw [expandNode, if_neg (by simp)]
        simp
      rw [hE]
      have hrest : rest.takeWhile (fun m => n.depth < m.depth) = [] := by
        match rest, hinv with
        | [], _ => simp
        | r :: rt, hinv =>
          simp only [unexpandedNoDeeper, hexp0, Bool.false_or, Bool.and_eq_true,
            decide_eq_true_eq] at hinv
          simp [List.takeWhile_cons, Nat.not_lt.mpr hinv.1]
      have hC : collapseNode ({ n with expanded := true } ::
          (mkChildNodes ct n.depth cs ++ rest)) 0 =
          { n with expanded := true } :: rest := by
        rw [collapseNode, if_neg (by simp)]
        simp only [List.getD_cons_zero, List.drop_succ_cons, List.drop_zero,
          List.take_succ_cons, List.take_zero]
        rw [takeWhile_children_append, hrest, List.append_nil]
        have hlen : 0 < (mkChildNodes ct n.depth cs).length := by
          simp [mkChildNodes]
          exact List.length_pos.mpr hcs
        rw [if_pos (by omega)]
        have : (mkChildNodes ct n.depth cs ++ rest).drop
            (0 + 1 + (mkChildNodes ct n.depth cs).length - 1) = rest := by
          have h0 : 0 + 1 + (mkChildNodes ct n.depth cs).length - 1 =
              (mkChildNodes ct n.depth cs).length := by omega
          rw [h0]
          exact List.drop_left _ _
        have hdrop : ({ n with expanded := true } ::
            (mkChildNodes ct n.depth cs ++ rest)).drop
            (0 + 1 + (mkChildNodes ct n.depth cs).length) = rest := by
          have h1 : 0 + 1 + (mkChildNodes ct n.depth cs).length =
              (mkChildNodes ct n.depth cs).length + 1 := by omega
          rw [h1, List.drop_succ_cons]
          exact List.drop_left _ _
        rw [hdrop]
        simp
      rw [collapseAt, hC]
      rw [if_neg (by simp)]
      simp only [List.getD_cons_zero, List.set_cons_zero]
      have : ({ n with expanded := true } : TreeNode) = { n with expanded := true } := rfl
      congr 1
      cases n
      simp_all
  | succ i ih =>
    match ns, hidx with
    | n :: rest, hidx =>
      have hinv2 : unexpandedNoDeeper rest = true := by
        match rest, hinv with
        | [], _ => rfl
        | r :: rt, hinv =>
          simp only [unexpandedNoDeeper, Bool.and_eq_true] at hinv
          exact hinv.2
      have hidx2 : i < rest.length := by simpa using Nat.lt_of_succ_lt_succ hidx
      have hexp2 : (rest.getD i default).expanded = false := by simpa using hexp
      rw [expandNode_cons_succ, collapseAt_cons_succ, ih rest hinv2 hidx2 hexp2]

theorem dropWhile_dropWhile {α : Type} (p : α → Bool) (l : List α) :
    (l.dropWhile p).dropWhile p = l.dropWhile p := by
  induction l with
  | nil => rfl
  | cons a t ih =>
    by_cases h : p a
    · simp [List.dropWhile_cons, h, ih]
    · simp [List.dropWhile_cons, h]

theorem drop_takeWhile_length {α : Type} (p : α → Bool) (l : List α) :
    l.drop (l.takeWhile p).length = l.dropWhile p := by
  induction l with
  | nil => rfl
  | cons a t ih =>
    by_cases h : p a
    · simp [List.takeWhile_cons, List.dropWhile_cons, h, ih]
    · simp [List.takeWhile_cons, List.dropWhile_cons, h]

theorem collapseNode_cons_zero (n : TreeNode) (l : List TreeNode) :
    collapseNode (n :: l) 0 = n :: l.dropWhile (fun m => n.depth < m.depth) := by
  rw [collapseNode, if_neg (by simp)]
  simp only [List.getD_cons_zero, List.drop_succ_cons, List.drop_zero,
    List.take_succ_cons, List.take_zero]
  by_cases hw : 0 < (l.takeWhile (fun m => n.depth < m.depth)).length
  · rw [if_pos (by omega)]
    have h1 : 0 + 1 + (l.takeWhile (fun m => n.depth < m.depth)).length =
        (l.takeWhile (fun m => n.depth < m.depth)).length + 1 := by omega
    rw [h1, List.drop_succ_cons]
    simp only [List.cons_append, List.nil_append]
    congr 1
    exact drop_takeWhile_length _ _
  · rw [if_neg (by omega)]
    have hnil : l.takeWhile (fun m => n.depth < m.depth) = [] :=
      List.length_eq_zero.mp (by omega)
    congr 1
    conv_lhs => rw [← List.takeWhile_append_dropWhile
      (p := fun m => n.depth < m.depth) (l := l)]
    rw [hnil, List.nil_append]

/-- C10: collapse is total and a no-op outside its domain — an index at or
past the end leaves the list unchanged, a valid index whose immediately
following node is not deeper leaves it unchanged, and collapsing the same
index twice equals collapsing it once. -/
theorem collapseNode_total_noop (ns : List TreeNode) (idx : Nat) :
    (ns.length ≤ idx → collapseNode ns idx = ns)
    ∧ (idx < ns.length → idx + 1 < ns.length →
        (ns.getD (idx + 1) default).depth ≤ (ns.getD idx default).depth →
        collapseNode ns idx = ns)
    ∧ collapseNode (collapseNode ns idx) idx = collapseNode ns idx := by
  induction idx generalizing ns with
  | zero =>
    refine ⟨?_, ?_, ?_⟩
    · intro h
      rw [collapseNode, if_pos h]
    · intro h h2 hdep
      match ns, h, h2 with
      | n :: m :: rest, _, _ =>
        rw [collapseNode_cons_zero]
        simp only [List.getD_cons_zero, List.getD_cons_succ] at hdep
        congr 1
        rw [List.dropWhile_cons]
        simp [Nat.not_lt.mpr hdep]
    · match ns with
      | [] => rfl
      | n :: rest =>
        rw [collapseNode_cons_zero, collapseNode_cons_zero]
        congr 1
        exact dropWhile_dropWhile _ _
  | succ i ih =>
    refine ⟨?_, ?_, ?_⟩
    · intro h
      rw [collapseNode, if_pos h]
    · intro h h2 hdep
      match ns, h, h2 with
      | n :: rest, h, h2 =>
        rw [collapseNode_cons_succ]
        congr 1
        have hr := (ih rest).2.1 (by simpa using Nat.lt_of_succ_lt_succ h)
          (by simpa using Nat.lt_of_succ_lt_succ h2)
          (by simpa using hdep)
        exact hr
    · match ns with
      | [] => rfl
      | n :: rest =>
        rw [collapseNode_cons_succ, collapseNode_cons_succ]
        congr 1
        exact (ih rest).2.2

/-- Witness for C5 and the tree operations at a concrete tree: expanding
the unexpanded root-level collection and collapsing it restores the
original two-node list. -/
theorem expand_collapse_roundtrip_witness :
    collapseAt (expandNode
      [⟨"users", "users", "collection", 0, true, false⟩,
       ⟨"posts", "posts", "collection", 0, true, false⟩] 0 "document"
      [("users/alice", "alice"), ("users/bob", "bob")]) 0 =
    [⟨"users", "users", "collection", 0, true, false⟩,
     ⟨"posts", "posts", "collection", 0, true, false⟩] := by
  exact expand_collapse_roundtrip _ 0 "document" _ (by decide) (by decide) (by decide)
    (by decide)

/-- Witness for C10 at a concrete tree: collapsing past the end, and
collapsing a node whose successor is not deeper, both leave the list
unchanged, and collapse is idempotent there. -/
theorem collapseNode_total_noop_witness :
    collapseNode [⟨"users", "users", "collection", 0, true, false⟩] 5 =
      [⟨"users", "users", "collection", 0, true, false⟩]
    ∧ collapseNode
        [⟨"users", "users", "collection", 0, true, false⟩,
         ⟨"posts", "posts", "collection", 0, true, false⟩] 0 =
      [⟨"users", "users", "collection", 0, true, false⟩,
       ⟨"posts", "posts", "collection", 0, true, false⟩] := by
  constructor
  · exact (collapseNode_total_noop _ 5).1 (by decide)
  · exact (collapseNode_total_noop _ 0).2.1 (by decide) (by decide) (by decide)

/-! ## Filter engine, filtered views and visual selection
(src/pkg/gui/gui.go and src/unnamed/part_008) -/

/-- Substring search over character lists (model of Go
`strings.Contains`): the needle occurs as a prefix of some suffix of the
haystack; the empty needle is contained in everything. -/
def strContainsAux (needle : List Char) : List Char → Bool
  | [] => needle.isEmpty
  | c :: t => needle.isPrefixOf (c :: t) || strContainsAux needle t

/-- Model of Go `strings.Contains(hay, needle)`. -/
def strContains (hay needle : String) : Bool :=
  strContainsAux needle.data hay.data

/-- Model of `matchesFilter`: the empty filter matches everything,
otherwise a case-insensitive substring test. -/
def matchesFilter (text filter : String) : Bool :=
  if filter = "" then true
  else strContains (goToLower text) (goToLower filter)

/-- The claim-side characterization of a display-text match: the filter
occurs in the text as a case-insensitive substring. -/
def containsCI (text filter : String) : Bool :=
  strContains (goToLower text) (goToLower filter)

/-- The fields of `firebase.Project` the filter engine reads. -/
structure Project where
  id : String
  displayName : String
  deriving DecidableEq, Repr

/-- The fields of `firebase.Collection` the filter engine reads. -/
structure Collection where
  name : String
  path : String
  deriving DecidableEq, Repr

/-- The fields of the `Gui` struct that the filtered views, the reverse
index lookup and the visual-select operations read and write. -/
structure GuiState where
  projects : List Project
  collections : List Collection
  treeNodes : List TreeNode
  projectsFilter : String
  collectionsFilter : String
  treeFilter : String
  filterInputActive : Bool
  filterInputPanel : String
  filterInputText : String
  currentColumn : String
  selectedProjectIndex : Nat
  selectedCollectionIdx : Nat
  selectedTreeIdx : Nat
  detailsScrollPos : Nat
  selectMode : Bool
  selectStartIdx : Nat
  selectedDocs : List Nat
  deriving DecidableEq, Repr

/-- The filter text `getFilteredProjects` applies: the edit buffer while
this panel is being edited, else the committed value. -/
def activeProjectsFilter (g : GuiState) : String :=
  if g.filterInputActive ∧ g.filterInputPanel = "projects" then g.filterInputText
  else g.projectsFilter

/-- The filter text `getFilteredCollections` applies. -/
def activeCollectionsFilter (g : GuiState) : String :=
  if g.filterInputActive ∧ g.filterInputPanel = "collections" then g.filterInputText
  else g.collectionsFilter

/-- The filter text `getFilteredTreeNodes` applies. -/
def activeTreeFilter (g : GuiState) : String :=
  if g.filterInputActive ∧ g.filterInputPanel = "tree" then g.filterInputText
  else g.treeFilter

/-- Model of `getFilteredProjects`: identity for the empty filter, else
keep projects whose display name or ID matches. -/
def getFilteredProjects (g : GuiState) : List Project :=
  if activeProjectsFilter g = "" then g.projects
  else g.projects.filter (fun p =>
    matchesFilter p.displayName (activeProjectsFilter g)
    || matchesFilter p.id (activeProjectsFilter g))

/-- Model of `getFilteredCollections`: identity for the empty filter, else
keep collections whose name matches. -/
def getFilteredCollections (g : GuiState) : List Collection :=
  if activeCollectionsFilter g = "" then g.collections
  else g.collections.filter (fun c => matchesFilter c.name (activeCollectionsFilter g))

/-- Model of `getFilteredTreeNodes`: identity for the empty filter, else
keep nodes whose name or path matches. -/
def getFilteredTreeNodes (g : GuiState) : List TreeNode :=
  if activeTreeFilter g = "" then g.treeNodes
  else g.treeNodes.filter (fun n =>
    matchesFilter n.name (activeTreeFilter g)
    || matchesFilter n.path (activeTreeFilter g))

/-- The index-scan loop of `getOriginalTreeNodeIndex`: first index (from
`i` upward) whose node has the target path, `-1` if none. -/
def findPathIdxFrom (p : String) : List TreeNode → Nat → Int
  | [], _ => -1
  | n :: t, i => if n.path = p then (i : Int) else findPathIdxFrom p t (i + 1)

/-- Model of `getOriginalTreeNodeIndex`: out-of-range filtered indices map
to `-1`; otherwise the backing list is scanned for the first node carrying
the filtered node's stable path key. -/
def getOriginalTreeNodeIndex (g : GuiState) (filteredIdx : Int) : Int :=
  if h : 0 ≤ filteredIdx ∧ filteredIdx.toNat < (getFilteredTreeNodes g).length then
    findPathIdxFrom (((getFilteredTreeNodes g).get ⟨filteredIdx.toNat, h.2⟩).path)
      g.treeNodes 0
  else -1

/-- Model of `updateSelectRange` (part_008): recompute `selectedDocs` from
scratch as the document-kind indices of the current filtered view lying in
the inclusive range between anchor and cursor. -/
def updateSelectRange (g : GuiState) : GuiState :=
  let filtered := getFilteredTreeNodes g
  let lo := min g.selectStartIdx g.selectedTreeIdx
  let hi := max g.selectStartIdx g.selectedTreeIdx
  { g with selectedDocs :=
      (List.range' lo (hi + 1 - lo)).filter (fun i =>
        decide (i < filtered.length ∧ (filtered.getD i default).type = "document")) }

/-- Model of `doToggleSelectMode` (part_008): only in the tree panel;
exiting clears the selection; entering anchors at the cursor and selects
the cursor's node when it is a document. -/
def doToggleSelectMode (g : GuiState) : GuiState :=
  if g.currentColumn ≠ "tree" then g
  else if g.selectMode then { g with selectMode := false, selectedDocs := [] }
  else
    let filtered := getFilteredTreeNodes g
    let sel : List Nat :=
      if g.selectedTreeIdx < filtered.length
          ∧ (filtered.getD g.selectedTreeIdx default).type = "document" then
        [g.selectedTreeIdx]
      else []
    { g with selectMode := true, selectStartIdx := g.selectedTreeIdx, selectedDocs := sel }

/-- Model of `doCursorDown` (part_008): move the current panel's cursor
down, bounded by the filtered view's length. -/
def doCursorDown (g : GuiState) : GuiState :=
  if g.currentColumn = "projects" then
    if g.selectedProjectIndex + 1 < (getFilteredProjects g).length then
      { g with selectedProjectIndex := g.selectedProjectIndex + 1 }
    else g
  else if g.currentColumn = "collections" then
    if g.selectedCollectionIdx + 1 < (getFilteredCollections g).length then
      { g with selectedCollectionIdx := g.selectedCollectionIdx + 1 }
    else g
  else if g.currentColumn = "tree" then
    if g.selectedTreeIdx + 1 < (getFilteredTreeNodes g).length then
      { g with selectedTreeIdx := g.selectedTreeIdx + 1 }
    else g
  else if g.currentColumn = "details" then
    { g with detailsScrollPos := g.detailsScrollPos + 1 }
  else g

/-- Model of `doCursorUp` (part_008). -/
def doCursorUp (g : GuiState) : GuiState :=
  if g.currentColumn = "projects" then
    if 0 < g.selectedProjectIndex then
      { g with selectedProjectIndex := g.selectedProjectIndex - 1 }
    else g
  else if g.currentColumn = "collections" then
    if 0 < g.selectedCollectionIdx then
      { g with selectedCollectionIdx := g.selectedCollectionIdx - 1 }
    else g
  else if g.currentColumn = "tree" then
    if 0 < g.selectedTreeIdx then
      { g with selectedTreeIdx := g.selectedTreeIdx - 1 }
    else g
  else if g.currentColumn = "details" then
    if 0 < g.detailsScrollPos then
      { g with detailsScrollPos := g.detailsScrollPos - 1 }
    else g
  else g

/-- Model of `selectMoveDown` (part_008): in select mode in the tree,
extend the cursor down and recompute the selection; otherwise a plain
cursor move. -/
def selectMoveDown (g : GuiState) : GuiState :=
  if g.selectMode ∧ g.currentColumn = "tree" then
    if g.selectedTreeIdx + 1 < (getFilteredTreeNodes g).length then
      updateSelectRange { g with selectedTreeIdx := g.selectedTreeIdx + 1 }
    else g
  else doCursorDown g

/-- Model of `selectMoveUp` (part_008). -/
def selectMoveUp (g : GuiState) : GuiState :=
  if g.selectMode ∧ g.currentColumn = "tree" then
    if 0 < g.selectedTreeIdx then
      updateSelectRange { g with selectedTreeIdx := g.selectedTreeIdx - 1 }
    else g
  else doCursorUp g

/-- The selection-range invariant of the spec: `selectedDocs` holds
exactly the document-kind indices of the current filtered view in the
inclusive range spanned by anchor and cursor. -/
def selInv (g : GuiState) : Prop :=
  ∀ i : Nat, i ∈ g.selectedDocs ↔
    (min g.selectStartIdx g.selectedTreeIdx ≤ i
     ∧ i ≤ max g.selectStartIdx g.selectedTreeIdx
     ∧ i < (getFilteredTreeNodes g).length
     ∧ ((getFilteredTreeNodes g).getD i default).type = "document")

theorem strContains_empty_needle (h : String) : strContains h "" = true := by
  rw [strContains]
  cases h.data with
  | nil => rfl
  | cons c t => simp [strContainsAux, List.isPrefixOf]

theorem containsCI_empty (t : String) : containsCI t "" = true := by
  rw [containsCI]
  exact strContains_empty_needle _

theorem matchesFilter_eq_containsCI (t f : String) : matchesFilter t f = containsCI t f := by
  by_cases h : f = ""
  · subst h
    rw [matchesFilter, if_pos rfl, containsCI_empty]
  · rw [matchesFilter, if_neg h, containsCI]

/-- C7: each panel's derived view is exactly the subsequence of its
backing list whose display text (display name or ID for projects, name
for collections, name or path for tree nodes) contains the active filter
text — edit buffer while editing, committed value otherwise — as a
case-insensitive substring, and the empty filter derives the identical
list for every panel. -/
theorem filter_derivation (g : GuiState) :
    (getFilteredProjects g = g.projects.filter (fun p =>
        containsCI p.displayName (activeProjectsFilter g)
        || containsCI p.id (activeProjectsFilter g)))
    ∧ (getFilteredCollections g = g.collections.filter (fun c =>
        containsCI c.name (activeCollectionsFilter g)))
    ∧ (getFilteredTreeNodes g = g.treeNodes.filter (fun n =>
        containsCI n.name (activeTreeFilter g)
        || containsCI n.path (activeTreeFilter g)))
    ∧ (activeProjectsFilter g = "" → getFilteredProjects g = g.projects)
    ∧ (activeCollectionsFilter g = "" → getFilteredCollections g = g.collections)
    ∧ (activeTreeFilter g = "" → getFilteredTreeNodes g = g.treeNodes) := by
  refine ⟨?_, ?_, ?_, ?_, ?_, ?_⟩
  · by_cases h : activeProjectsFilter g = ""
    · rw [getFilteredProjects, if_pos h, h]
      symm
      rw [List.filter_eq_self]
      intro a _
      simp [containsCI_empty]
    · rw [getFilteredProjects, if_neg h]
      exact List.filter_congr (fun x _ => by
        rw [matchesFilter_eq_containsCI, matchesFilter_eq_containsCI])
  · by_cases h : activeCollectionsFilter g = ""
    · rw [getFilteredCollections, if_pos h, h]
      symm
      rw [List.filter_eq_self]
      intro a _
      simp [containsCI_empty]
    · rw [getFilteredCollections, if_neg h]
      exact List.filter_congr (fun x _ => by rw [matchesFilter_eq_containsCI])
  · by_cases h : activeTreeFilter g = ""
    · rw [getFilteredTreeNodes, if_pos h, h]
      symm
      rw [List.filter_eq_self]
      intro a _
      simp [containsCI_empty]
    · rw [getFilteredTreeNodes, if_neg h]
      exact List.filter_congr (fun x _ => by
        rw [matchesFilter_eq_containsCI, matchesFilter_eq_containsCI])
  · intro h
    rw [getFilteredProjects, if_pos h]
  · intro h
    rw [getFilteredCollections, if_pos h]
  · intro h
    rw [getFilteredTreeNodes, if_pos h]

/-- The concrete GUI state used by the filter and selection witnesses. -/
def exampleGuiState : GuiState :=
  { projects := [⟨"p1", "Alpha"⟩, ⟨"p2", "Beta"⟩]
    collections := [⟨"users", "users"⟩]
    treeNodes := [⟨"users", "users", "collection", 0, true, false⟩,
      ⟨"users/alice", "alice", "document", 1, true, false⟩,
      ⟨"users/bob", "bob", "document", 1, true, false⟩]
    projectsFilter := ""
    collectionsFilter := ""
    treeFilter := ""
    filterInputActive := false
    filterInputPanel := ""
    filterInputText := ""
    currentColumn := "tree"
    selectedProjectIndex := 0
    selectedCollectionIdx := 0
    selectedTreeIdx := 1
    detailsScrollPos := 0
    selectMode := false
    selectStartIdx := 0
    selectedDocs := [] }

/-- Witness for C7: on a concrete state with empty committed filters and
no edit in progress, every panel's derived view is its backing list. -/
theorem filter_derivation_witness :
    getFilteredProjects exampleGuiState = exampleGuiState.projects
    ∧ getFilteredCollections exampleGuiState = exampleGuiState.collections
    ∧ getFilteredTreeNodes exampleGuiState = exampleGuiState.treeNodes := by
  have h := filter_derivation exampleGuiState
  exact ⟨h.2.2.2.1 (by rfl), h.2.2.2.2.1 (by rfl), h.2.2.2.2.2 (by rfl)⟩

theorem findPathIdxFrom_spec (p : String) (ns : List TreeNode) :
    (∃ n ∈ ns, n.path = p) → ∀ i : Nat,
      ∃ b : Nat, b < ns.length
        ∧ findPathIdxFrom p ns i = ((i + b : Nat) : Int)
        ∧ (ns.getD b default).path = p := by
  intro hmem i
  induction ns generalizing i with
  | nil => simp at hmem
  | cons n t ih =>
    by_cases hn : n.path = p
    · exact ⟨0, by simp, by simp [findPathIdxFrom, hn], by simpa using hn⟩
    · have hmem2 : ∃ m ∈ t, m.path = p := by
        rcases hmem with ⟨m, hm, hmp⟩
        rcases List.mem_cons.mp hm with h | h
        · exact absurd (h ▸ hmp) hn
        · exact ⟨m, h, hmp⟩
      rcases (by exact fun j => (ih hmem2 : ∀ _, _) j : ∀ j : Nat, _) (i + 1) with
        ⟨b, hb, hfind, hpath⟩
      refine ⟨b + 1, by simpa using Nat.succ_lt_succ hb, ?_, by simpa using hpath⟩
      rw [findPathIdxFrom, if_neg hn, hfind]
      congr 1
      omega

/-- C8: for every in-range filtered index the reverse lookup returns a
backing index whose node carries the same stable path key as the filtered
node, and for every out-of-range filtered index it returns `-1`. -/
theorem getOriginalTreeNodeIndex_spec (g : GuiState) (filteredIdx : Int) :
    (0 ≤ filteredIdx → filteredIdx.toNat < (getFilteredTreeNodes g).length →
      ∃ b : Nat, b < g.treeNodes.length
        ∧ getOriginalTreeNodeIndex g filteredIdx = (b : Int)
        ∧ (g.treeNodes.getD b default).path
            = ((getFilteredTreeNodes g).getD filteredIdx.toNat default).path)
    ∧ (filteredIdx < 0 ∨ ((getFilteredTreeNodes g).length : Int) ≤ filteredIdx →
        getOriginalTreeNodeIndex g filteredIdx = -1) := by
  constructor
  · intro h0 hlt
    have hsub : ∀ x, x ∈ getFilteredTreeNodes g → x ∈ g.treeNodes := by
      intro x hx
      by_cases h : activeTreeFilter g = ""
      · rw [getFilteredTreeNodes, if_pos h] at hx
        exact hx
      · rw [getFilteredTreeNodes, if_neg h] at hx
        exact List.mem_of_mem_filter hx
    have hmem : (getFilteredTreeNodes g).get ⟨filteredIdx.toNat, hlt⟩ ∈ g.treeNodes :=
      hsub _ (List.get_mem _ _ hlt)
    rcases findPathIdxFrom_spec
        (((getFilteredTreeNodes g).get ⟨filteredIdx.toNat, hlt⟩).path) g.treeNodes
        ⟨_, hmem, rfl⟩ 0 with ⟨b, hb, hfind, hpath⟩
    refine ⟨b, hb, ?_, ?_⟩
    · rw [getOriginalTreeNodeIndex, dif_pos ⟨h0, hlt⟩, hfind]
      congr 1
      omega
    · rw [hpath]
      congr 1
      rw [List.getD_eq_getElem _ _ hlt, List.get_eq_getElem]
  · intro h
    rw [getOriginalTreeNodeIndex, dif_neg]
    rintro ⟨h0, hlt⟩
    rcases h with h | h
    · omega
    · omega

/-- Witness for C8: on the concrete state (no active filter), filtered
index 1 maps back to backing index 1 with the matching path, and index 7
is out of range and maps to `-1`. -/
theorem getOriginalTreeNodeIndex_spec_witness :
    getOriginalTreeNodeIndex exampleGuiState 1 = 1
    ∧ getOriginalTreeNodeIndex exampleGuiState 7 = -1 := by
  constructor
  · rcases (getOriginalTreeNodeIndex_spec exampleGuiState 1).1 (by decide)
        (by decide) with ⟨b, hb, hfind, hpath⟩
    have hb1 : b = 1 := by
      have hlen : exampleGuiState.treeNodes.length = 3 := by decide
      rw [hlen] at hb
      interval_cases b
      · exact absurd hpath (by decide)
      · rfl
      · exact absurd hpath (by decide)
    rw [hfind, hb1]
    rfl
  · exact (getOriginalTreeNodeIndex_spec exampleGuiState 7).2 (Or.inr (by decide))

/-- The selection written by a successful downward extension, expressed
over the state's own fields (it does not read the previous selection). -/
theorem selectMoveDown_docs (g : GuiState) (h1 : g.selectMode = true)
    (h2 : g.currentColumn = "tree")
    (h3 : g.selectedTreeIdx + 1 < (getFilteredTreeNodes g).length) :
    (selectMoveDown g).selectedDocs =
      (List.range' (min g.selectStartIdx (g.selectedTreeIdx + 1))
        (max g.selectStartIdx (g.selectedTreeIdx + 1) + 1
          - min g.selectStartIdx (g.selectedTreeIdx + 1))).filter (fun j =>
        decide (j < (getFilteredTreeNodes g).length
          ∧ ((getFilteredTreeNodes g).getD j default).type = "document")) := by
  rw [selectMoveDown, if_pos (by simp [h1, h2]), if_pos h3]
  rfl

/-- `updateSelectRange` establishes the selection-range invariant
unconditionally: the selection it writes is computed from anchor, cursor
and the current filtered view alone. -/
theorem selInv_updateSelectRange (g : GuiState) : selInv (updateSelectRange g) := by
  intro i
  have hmm : (updateSelectRange g).selectedDocs =
      (List.range' (min g.selectStartIdx g.selectedTreeIdx)
        (max g.selectStartIdx g.selectedTreeIdx + 1
          - min g.selectStartIdx g.selectedTreeIdx)).filter (fun j =>
        decide (j < (getFilteredTreeNodes g).length
          ∧ ((getFilteredTreeNodes g).getD j default).type = "document")) := rfl
  have hstart : (updateSelectRange g).selectStartIdx = g.selectStartIdx := rfl
  have hcur : (updateSelectRange g).selectedTreeIdx = g.selectedTreeIdx := rfl
  have hfil : getFilteredTreeNodes (updateSelectRange g) = getFilteredTreeNodes g := rfl
  rw [hmm, hstart, hcur, hfil, List.mem_filter, List.mem_range'_1]
  constructor
  · rintro ⟨⟨h1, h2⟩, hp⟩
    have hp2 := of_decide_eq_true hp
    exact ⟨h1, by omega, hp2.1, hp2.2⟩
  · rintro ⟨h1, h2, h3, h4⟩
    exact ⟨⟨h1, by omega⟩, decide_eq_true ⟨h3, h4⟩⟩

/-- C6: entering visual select mode anchors at the cursor and establishes
the range invariant; every cursor extension preserves it (recomputing the
selection from anchor and cursor over the current filtered view, with no
dependence on the previous selection); and collection-kind nodes are never
members of the selected set. -/
theorem selection_range_invariant (g : GuiState) :
    (g.currentColumn = "tree" → g.selectMode = false →
      (doToggleSelectMode g).selectMode = true ∧ selInv (doToggleSelectMode g))
    ∧ (g.selectMode = true → g.currentColumn = "tree" → selInv g →
        selInv (selectMoveDown g) ∧ selInv (selectMoveUp g))
    ∧ (g.selectMode = true → g.currentColumn = "tree" →
        g.selectedTreeIdx + 1 < (getFilteredTreeNodes g).length →
        ∀ prior : List Nat,
          (selectMoveDown { g with selectedDocs := prior }).selectedDocs
            = (selectMoveDown g).selectedDocs)
    ∧ (∀ i, i ∈ (updateSelectRange g).selectedDocs →
        i < (getFilteredTreeNodes g).length
        ∧ ((getFilteredTreeNodes g).getD i default).type ≠ "collection") := by
  refine ⟨?_, ?_, ?_, ?_⟩
  · intro hcol hsel
    have hne : ¬(g.currentColumn ≠ "tree") := by simp [hcol]
    have hmode : (doToggleSelectMode g).selectMode = true := by
      rw [doToggleSelectMode, if_neg hne, if_neg (by simp [hsel])]
    have hanchor : (doToggleSelectMode g).selectStartIdx = g.selectedTreeIdx := by
      rw [doToggleSelectMode, if_neg hne, if_neg (by simp [hsel])]
    have hcursor : (doToggleSelectMode g).selectedTreeIdx = g.selectedTreeIdx := by
      rw [doToggleSelectMode, if_neg hne, if_neg (by simp [hsel])]
    have hfil : getFilteredTreeNodes (doToggleSelectMode g) = getFilteredTreeNodes g := by
      rw [doToggleSelectMode, if_neg hne, if_neg (by simp [hsel])]
      rfl
    have hdocs : (doToggleSelectMode g).selectedDocs =
        (if g.selectedTreeIdx < (getFilteredTreeNodes g).length
            ∧ ((getFilteredTreeNodes g).getD g.selectedTreeIdx default).type = "document"
          then [g.selectedTreeIdx] else []) := by
      rw [doToggleSelectMode, if_neg hne, if_neg (by simp [hsel])]
    refine ⟨hmode, ?_⟩
    intro i
    rw [hdocs, hanchor, hcursor, hfil, Nat.min_self, Nat.max_self]
    by_cases hc : g.selectedTreeIdx < (getFilteredTreeNodes g).length
        ∧ ((getFilteredTreeNodes g).getD g.selectedTreeIdx default).type = "document"
    · rw [if_pos hc, List.mem_singleton]
      constructor
      · rintro rfl
        exact ⟨Nat.le_refl _, Nat.le_refl _, hc.1, hc.2⟩
      · rintro ⟨h1, h2, _, _⟩
        omega
    · rw [if_neg hc]
      simp only [List.not_mem_nil, false_iff]
      rintro ⟨h1, h2, h3, h4⟩
      have hi : i = g.selectedTreeIdx := by omega
      rw [hi] at h3 h4
      exact hc ⟨h3, h4⟩
  · intro hsel hcol hinv
    constructor
    · rw [selectMoveDown, if_pos (by simp [hsel, hcol])]
      by_cases hmv : g.selectedTreeIdx + 1 < (getFilteredTreeNodes g).length
      · rw [if_pos hmv]
        exact selInv_updateSelectRange _
      · rw [if_neg hmv]
        exact hinv
    · rw [selectMoveUp, if_pos (by simp [hsel, hcol])]
      by_cases hmv : 0 < g.selectedTreeIdx
      · rw [if_pos hmv]
        exact selInv_updateSelectRange _
      · rw [if_neg hmv]
        exact hinv
  · intro hsel hcol hmv prior
    rw [selectMoveDown_docs { g with selectedDocs := prior } hsel hcol hmv,
      selectMoveDown_docs g hsel hcol hmv]
    rfl
  · intro i hi
    rcases (selInv_updateSelectRange g i).mp hi with ⟨_, _, h3, h4⟩
    have h3g : i < (getFilteredTreeNodes g).length := h3
    have h4g : ((getFilteredTreeNodes g).getD i default).type = "document" := h4
    refine ⟨h3g, ?_⟩
    rw [h4g]
    decide

/-- Witness for C6: toggling select mode on the concrete state (tree
panel, cursor on the document node at index 1) enters select mode with
exactly that node selected. -/
theorem selection_range_invariant_witness :
    (doToggleSelectMode exampleGuiState).selectMode = true
    ∧ 1 ∈ (doToggleSelectMode exampleGuiState).selectedDocs := by
  have h := (selection_range_invariant exampleGuiState).1 rfl rfl
  refine ⟨h.1, (h.2 1).mpr ?_⟩
  exact ⟨by decide, by decide, by decide, by decide⟩

/-! ## Parallel multi-document fetch (src/unnamed/part_008, `doFetchSelectedDocs`)

The Go function walks the selected indices, serves cache hits
immediately, starts one goroutine per uncached path, joins them all with
a `WaitGroup`, and only then merges the per-task results — successes into
the combined map and the document cache, failures into one log entry
each — and applies the combined result once.  Because each task writes
its own slot of the results slice and the merge happens after the join,
the observable outcome is a pure function of the per-path fetch outcome,
which the embedding represents as an oracle `fetch : String → Except`.
Go's maps are modelled as association lists with first-match lookup;
iteration order (arbitrary for a Go map) does not affect any stated
property. -/

/-- Lookup in an association-list model of a Go map. -/
def mapLookup {α : Type} (m : List (String × α)) (k : String) : Option α :=
  match m.find? (fun e => e.1 == k) with
  | some e => some e.2
  | none => none

/-- The cache-check loop of `doFetchSelectedDocs`: for each selected
index of a document node of the filtered view, either take the cached
data into the combined result or add the path to the fetch list. -/
def collectDocs {α : Type} (filtered : List TreeNode) (cache : List (String × α)) :
    List Nat → List (String × α) × List String
  | [] => ([], [])
  | idx :: rest =>
    let acc := collectDocs filtered cache rest
    if idx < filtered.length ∧ (filtered.getD idx default).type = "document" then
      match mapLookup cache (filtered.getD idx default).path with
      | some d => (((filtered.getD idx default).path, d) :: acc.1, acc.2)
      | none => (acc.1, (filtered.getD idx default).path :: acc.2)
    else acc

/-- The post-join merge loop of `doFetchSelectedDocs`: each fetched path
contributes its data to the combined result and the cache on success, or
one `Error fetching` log entry on failure. -/
def mergeResults {α : Type} (fetch : String → Except String α) :
    List String → List (String × α) × List (String × α) × List String
  | [] => ([], [], [])
  | p :: rest =>
    let acc := mergeResults fetch rest
    match fetch p with
    | .ok d => ((p, d) :: acc.1, (p, d) :: acc.2.1, acc.2.2)
    | .error e =>
      (acc.1, acc.2.1, ("Error fetching " ++ p ++ ": " ++ e) :: acc.2.2)

/-- The observable outcome of one `doFetchSelectedDocs` run. -/
structure FetchOutcome (α : Type) where
  combined : List (String × α)
  newCache : List (String × α)
  errorLogs : List String
  fetched : List String

/-- Model of `doFetchSelectedDocs`: collect cache hits and the paths to
fetch, fan out the fetches (oracle `fetch`), join, and merge once. -/
def doFetchSelectedDocs {α : Type} (selected : List Nat) (filtered : List TreeNode)
    (cache : List (String × α)) (fetch : String → Except String α) : FetchOutcome α :=
  let c := collectDocs filtered cache selected
  let m := mergeResults fetch c.2
  { combined := m.1 ++ c.1
    newCache := m.2.1 ++ cache
    errorLogs := m.2.2
    fetched := c.2 }

theorem mapLookup_cons {α : Type} (k : String) (v : α) (m : List (String × α)) (p : String) :
    mapLookup ((k, v) :: m) p = if k = p then some v else mapLookup m p := by
  by_cases h : k = p
  · rw [mapLookup, List.find?_cons_of_pos _ (by simpa using h), if_pos h]
  · rw [mapLookup, List.find?_cons_of_neg _ (by simpa using h), if_neg h, mapLookup]

theorem mapLookup_append_some {α : Type} (a b : List (String × α)) (p : String) (v : α)
    (h : mapLookup a p = some v) : mapLookup (a ++ b) p = some v := by
  induction a with
  | nil => rw [mapLookup] at h; simp at h
  | cons e t ih =>
    rw [List.cons_append]
    rcases e with ⟨k, w⟩
    rw [mapLookup_cons] at h ⊢
    by_cases hk : k = p
    · rw [if_pos hk] at h ⊢
      exact h
    · rw [if_neg hk] at h ⊢
      exact ih h

theorem mapLookup_append_none {α : Type} (a b : List (String × α)) (p : String)
    (h : mapLookup a p = none) : mapLookup (a ++ b) p = mapLookup b p := by
  induction a with
  | nil => rfl
  | cons e t ih =>
    rw [List.cons_append]
    rcases e with ⟨k, w⟩
    rw [mapLookup_cons] at h ⊢
    by_cases hk : k = p
    · rw [if_pos hk] at h
      exact absurd h (by simp)
    · rw [if_neg hk] at h ⊢
      exact ih h

theorem mapLookup_none_of_keys {α : Type} (m : List (String × α)) (p : String)
    (h : ∀ e ∈ m, e.1 ≠ p) : mapLookup m p = none := by
  induction m with
  | nil => rfl
  | cons e t ih =>
    rcases e with ⟨k, w⟩
    rw [mapLookup_cons, if_neg (h (k, w) (List.mem_cons_self _ _))]
    exact ih (fun x hx => h x (List.mem_cons_of_mem _ hx))

/-- Every path placed on the fetch list had a cache miss. -/
theorem collectDocs_fetched_uncached {α : Type} (filtered : List TreeNode)
    (cache : List (String × α)) (sel : List Nat) :
    ∀ p ∈ (collectDocs filtered cache sel).2, mapLookup cache p = none := by
  induction sel with
  | nil => intro p hp; simp [collectDocs] at hp
  | cons j rest ih =>
    intro p hp
    rw [collectDocs] at hp
    split at hp
    · cases hc : mapLookup cache (filtered.getD j default).path with
      | some d =>
        rw [hc] at hp
        exact ih p hp
      | none =>
        rw [hc] at hp
        rcases List.mem_cons.mp hp with h | h
        · rw [h]
          exact hc
        · exact ih p h
    · exact ih p hp

/-- Every cache-hit entry of the combined result is backed by the cache. -/
theorem collectDocs_combined_cached {α : Type} (filtered : List TreeNode)
    (cache : List (String × α)) (sel : List Nat) :
    ∀ e ∈ (collectDocs filtered cache sel).1, mapLookup cache e.1 = some e.2 := by
  induction sel with
  | nil => intro e he; simp [collectDocs] at he
  | cons j rest ih =>
    intro e he
    rw [collectDocs] at he
    split at he
    · cases hc : mapLookup cache (filtered.getD j default).path with
      | some d =>
        rw [hc] at he
        rcases List.mem_cons.mp he with h | h
        · rw [h]
          exact hc
        · exact ih e h
      | none =>
        rw [hc] at he
        exact ih e he
    · exact ih e he

/-- A selected document index with a cache hit is served by the combined
result of the collect phase. -/
theorem collectDocs_cached_lookup {α : Type} (filtered : List TreeNode)
    (cache : List (String × α)) (sel : List Nat) (idx : Nat) (d : α)
    (hmem : idx ∈ sel) (hlt : idx < filtered.length)
    (hdoc : (filtered.getD idx default).type = "document")
    (hc : mapLookup cache (filtered.getD idx default).path = some d) :
    mapLookup (collectDocs filtered cache sel).1
      (filtered.getD idx default).path = some d := by
  induction sel with
  | nil => simp at hmem
  | cons j rest ih =>
    rw [collectDocs]
    rcases List.mem_cons.mp hmem with hj | hj
    · subst hj
      rw [if_pos ⟨hlt, hdoc⟩, hc]
      simp only
      rw [mapLookup_cons, if_pos rfl]
    · split
      · cases hcj : mapLookup cache (filtered.getD j default).path with
        | some dj =>
          simp only [hcj]
          rw [mapLookup_cons]
          by_cases hkey : (filtered.getD j default).path = (filtered.getD idx default).path
          · rw [if_pos hkey]
            rw [hkey] at hcj
            rw [hc] at hcj
            exact hcj.symm
          · rw [if_neg hkey]
            exact ih hj
        | none =>
          simp only [hcj]
          exact ih hj
      · exact ih hj

/-- A selected document index with a cache miss lands on the fetch list. -/
theorem collectDocs_uncached_fetched {α : Type} (filtered : List TreeNode)
    (cache : List (String × α)) (sel : List Nat) (idx : Nat)
    (hmem : idx ∈ sel) (hlt : idx < filtered.length)
    (hdoc : (filtered.getD idx default).type = "document")
    (hc : mapLookup cache (filtered.getD idx default).path = none) :
    (filtered.getD idx default).path ∈ (collectDocs filtered cache sel).2 := by
  induction sel with
  | nil => simp at hmem
  | cons j rest ih =>
    rw [collectDocs]
    rcases List.mem_cons.mp hmem with hj | hj
    · subst hj
      rw [if_pos ⟨hlt, hdoc⟩, hc]
      simp only
      exact List.mem_cons_self _ _
    · split
      · cases hcj : mapLookup cache (filtered.getD j default).path with
        | some dj =>
          simp only [hcj]
          exact ih hj
        | none =>
          simp only [hcj]
          exact List.mem_cons_of_mem _ (ih hj)
      · exact ih hj

/-- Every entry of the fetched part of the combined result comes from a
successful fetch of a listed path. -/
theorem mergeResults_combined_ok {α : Type} (fetch : String → Except String α)
    (toFetch : List String) :
    ∀ e ∈ (mergeResults fetch toFetch).1,
      fetch e.1 = .ok e.2 ∧ e.1 ∈ toFetch := by
  induction toFetch with
  | nil => intro e he; simp [mergeResults] at he
  | cons q rest ih =>
    intro e he
    rw [mergeResults] at he
    cases hq : fetch q with
    | ok d =>
      rw [hq] at he
      rcases List.mem_cons.mp he with h | h
      · rw [h]
        exact ⟨by simpa using hq, List.mem_cons_self _ _⟩
      · exact ⟨(ih e h).1, List.mem_cons_of_mem _ (ih e h).2⟩
    | error er =>
      rw [hq] at he
      exact ⟨(ih e he).1, List.mem_cons_of_mem _ (ih e he).2⟩

/-- A listed path whose fetch succeeds is present in the fetched part of
the combined result with its fetched data. -/
theorem mergeResults_ok_lookup {α : Type} (fetch : String → Except String α)
    (toFetch : List String) (p : String) (d : α)
    (hmem : p ∈ toFetch) (hok : fetch p = .ok d) :
    mapLookup (mergeResults fetch toFetch).1 p = some d := by
  induction toFetch with
  | nil => simp at hmem
  | cons q rest ih =>
    rw [mergeResults]
    rcases List.mem_cons.mp hmem with hq | hq
    · subst hq
      rw [hok]
      simp only
      rw [mapLookup_cons, if_pos rfl]
    · cases hfq : fetch q with
      | ok dq =>
        simp only
        rw [mapLookup_cons]
        by_cases hk : q = p
        · subst hk
          rw [hfq] at hok
          rw [if_pos rfl]
          exact congrArg some (by injection hok)
        · rw [if_neg hk]
          exact ih hq
      | error er =>
        simp only
        exact ih hq

/-- A listed path whose fetch succeeds is written to the cache additions. -/
theorem mergeResults_ok_cache {α : Type} (fetch : String → Except String α)
    (toFetch : List String) (p : String) (d : α)
    (hmem : p ∈ toFetch) (hok : fetch p = .ok d) :
    mapLookup (mergeResults fetch toFetch).2.1 p = some d := by
  induction toFetch with
  | nil => simp at hmem
  | cons q rest ih =>
    rw [mergeResults]
    rcases List.mem_cons.mp hmem with hq | hq
    · subst hq
      rw [hok]
      simp only
      rw [mapLookup_cons, if_pos rfl]
    · cases hfq : fetch q with
      | ok dq =>
        simp only
        rw [mapLookup_cons]
        by_cases hk : q = p
        · subst hk
          rw [hfq] at hok
          rw [if_pos rfl]
          exact congrArg some (by injection hok)
        · rw [if_neg hk]
          exact ih hq
      | error er =>
        simp only
        exact ih hq

/-- A listed path whose fetch fails produces its own error log entry. -/
theorem mergeResults_error_log {α : Type} (fetch : String → Except String α)
    (toFetch : List String) (p : String) (er : String)
    (hmem : p ∈ toFetch) (herr : fetch p = .error er) :
    ("Error fetching " ++ p ++ ": " ++ er) ∈ (mergeResults fetch toFetch).2.2 := by
  induction toFetch with
  | nil => simp at hmem
  | cons q rest ih =>
    rw [mergeResults]
    rcases List.mem_cons.mp hmem with hq | hq
    · subst hq
      rw [herr]
      simp only
      exact List.mem_cons_self _ _
    · cases hfq : fetch q with
      | ok dq =>
        simp only
        exact ih hq
      | error er2 =>
        simp only
        exact List.mem_cons_of_mem _ (ih hq)

/-- C9: the parallel multi-document fetch is never all-or-nothing.  For
every selected document path: a cache hit is served from the cache into
the combined result and never issues a fetch; a cache miss whose fetch
succeeds is merged into the combined result and written to the cache; a
cache miss whose fetch fails produces its own error log entry and is
simply absent from the combined result — independently of how the other
paths fared. -/
theorem fetchSelectedDocs_partial_failure {α : Type} (selected : List Nat)
    (filtered : List TreeNode) (cache : List (String × α))
    (fetch : String → Except String α) (idx : Nat)
    (hmem : idx ∈ selected) (hlt : idx < filtered.length)
    (hdoc : (filtered.getD idx default).type = "document") :
    (∀ d, mapLookup cache (filtered.getD idx default).path = some d →
      mapLookup (doFetchSelectedDocs selected filtered cache fetch).combined
          (filtered.getD idx default).path = some d
      ∧ (filtered.getD idx default).path
          ∉ (doFetchSelectedDocs selected filtered cache fetch).fetched)
    ∧ (∀ d, mapLookup cache (filtered.getD idx default).path = none →
        fetch (filtered.getD idx default).path = .ok d →
        mapLookup (doFetchSelectedDocs selected filtered cache fetch).combined
            (filtered.getD idx default).path = some d
        ∧ mapLookup (doFetchSelectedDocs selected filtered cache fetch).newCache
            (filtered.getD idx default).path = some d)
    ∧ (∀ er, mapLookup cache (filtered.getD idx default).path = none →
        fetch (filtered.getD idx default).path = .error er →
        ("Error fetching " ++ (filtered.getD idx default).path ++ ": " ++ er)
            ∈ (doFetchSelectedDocs selected filtered cache fetch).errorLogs
        ∧ mapLookup (doFetchSelectedDocs selected filtered cache fetch).combined
            (filtered.getD idx default).path = none) := by
  refine ⟨?_, ?_, ?_⟩
  · intro d hc
    constructor
    · show mapLookup ((mergeResults fetch (collectDocs filtered cache selected).2).1
        ++ (collectDocs filtered cache selected).1) _ = some d
      have hnone : mapLookup
          (mergeResults fetch (collectDocs filtered cache selected).2).1
          (filtered.getD idx default).path = none := by
        apply mapLookup_none_of_keys
        intro e he hk
        have h1 := (mergeResults_combined_ok fetch _ e he).2
        rw [hk] at h1
        have := collectDocs_fetched_uncached filtered cache selected _ h1
        rw [this] at hc
        exact Option.noConfusion hc
      rw [mapLookup_append_none _ _ _ hnone]
      exact collectDocs_cached_lookup filtered cache selected idx d hmem hlt hdoc hc
    · show (filtered.getD idx default).path ∉ (collectDocs filtered cache selected).2
      intro hin
      have := collectDocs_fetched_uncached filtered cache selected _ hin
      rw [this] at hc
      exact Option.noConfusion hc
  · intro d hc hok
    have hfet := collectDocs_uncached_fetched filtered cache selected idx hmem hlt hdoc hc
    constructor
    · show mapLookup ((mergeResults fetch (collectDocs filtered cache selected).2).1
        ++ (collectDocs filtered cache selected).1) _ = some d
      exact mapLookup_append_some _ _ _ _ (mergeResults_ok_lookup fetch _ _ _ hfet hok)
    · show mapLookup ((mergeResults fetch (collectDocs filtered cache selected).2).2.1
        ++ cache) _ = some d
      exact mapLookup_append_some _ _ _ _ (mergeResults_ok_cache fetch _ _ _ hfet hok)
  · intro er hc herr
    have hfet := collectDocs_uncached_fetched filtered cache selected idx hmem hlt hdoc hc
    constructor
    · exact mergeResults_error_log fetch _ _ _ hfet herr
    · show mapLookup ((mergeResults fetch (collectDocs filtered cache selected).2).1
        ++ (collectDocs filtered cache selected).1) _ = none
      have hnone1 : mapLookup
          (mergeResults fetch (collectDocs filtered cache selected).2).1
          (filtered.getD idx default).path = none := by
        apply mapLookup_none_of_keys
        intro e he hk
        have h1 := (mergeResults_combined_ok fetch _ e he).1
        rw [hk, herr] at h1
        exact Except.noConfusion h1
      rw [mapLookup_append_none _ _ _ hnone1]
      apply mapLookup_none_of_keys
      intro e he hk
      have h2 := collectDocs_combined_cached filtered cache selected e he
      rw [hk] at h2
      rw [h2] at hc
      exact Option.noConfusion hc

/-- The concrete fetch oracle for the C9 witness: `users/bob` succeeds,
everything else fails. -/
def exampleFetch : String → Except String String :=
  fun p => if p = "users/bob" then .ok "bobData" else .error "boom"

/-- The filtered view for the C9 witness: one collection and two
documents. -/
def exampleFetchView : List TreeNode :=
  [⟨"users", "users", "collection", 0, true, false⟩,
   ⟨"users/alice", "alice", "document", 1, true, false⟩,
   ⟨"users/bob", "bob", "document", 1, true, false⟩,
   ⟨"users/carol", "carol", "document", 1, true, false⟩]

/-- Witness for C9 on a concrete batch: the cached path is served without
a fetch, the successful path is merged and cached, and the failing path
is logged and absent — all in the same run. -/
theorem fetchSelectedDocs_partial_failure_witness :
    (mapLookup (doFetchSelectedDocs [1, 2, 3] exampleFetchView
        [("users/alice", "aliceData")] exampleFetch).combined "users/alice"
      = some "aliceData"
    ∧ "users/alice" ∉ (doFetchSelectedDocs [1, 2, 3] exampleFetchView
        [("users/alice", "aliceData")] exampleFetch).fetched)
    ∧ (mapLookup (doFetchSelectedDocs [1, 2, 3] exampleFetchView
        [("users/alice", "aliceData")] exampleFetch).combined "users/bob"
      = some "bobData")
    ∧ ("Error fetching users/carol: boom" ∈ (doFetchSelectedDocs [1, 2, 3]
        exampleFetchView [("users/alice", "aliceData")] exampleFetch).errorLogs
    ∧ mapLookup (doFetchSelectedDocs [1, 2, 3] exampleFetchView
        [("users/alice", "aliceData")] exampleFetch).combined "users/carol"
      = none) := by
  refine ⟨?_, ?_, ?_⟩
  · exact (fetchSelectedDocs_partial_failure [1, 2, 3] exampleFetchView
      [("users/alice", "aliceData")] exampleFetch 1 (by decide) (by decide)
      (by decide)).1 "aliceData" (by rfl)
  · exact ((fetchSelectedDocs_partial_failure [1, 2, 3] exampleFetchView
      [("users/alice", "aliceData")] exampleFetch 2 (by decide) (by decide)
      (by decide)).2.1 "bobData" (by rfl) (by rfl)).1
  · exact (fetchSelectedDocs_partial_failure [1, 2, 3] exampleFetchView
      [("users/alice", "aliceData")] exampleFetch 3 (by decide) (by decide)
      (by decide)).2.2 "boom" (by rfl) (by rfl)

end LazyFire
